import Mathlib

/-!
Verification of the sits.bi repository (a Streamlit spreadsheet-analytics
app).  The code under verification is `src/data_processing.py` (`clean_name`,
`compute_kpis`) together with the column-role classifier that the
specification describes; the classifier itself is not shipped in `src/`
(only the presentation layer is), so it is modelled from the specification
where indicated.  Tables are shallowly embedded: a pandas DataFrame becomes
an ordered association list of named columns of cells, a pandas scalar
becomes a `Cell`.
-/

set_option maxRecDepth 4000

namespace SitsBI

/-- A cell of a loaded table.  The source manipulates pandas values whose
runtime shape may be a missing marker (NaN/NaT/None), a number, an
already-parsed timestamp, or raw text; the spec's data model (§3) makes this
an explicit sum.  Timestamps are modelled at minute granularity (minutes
since an epoch), numbers as integers. -/
inductive Cell where
  | missing : Cell
  | num : Int → Cell
  | date : Int → Cell
  | text : String → Cell
deriving DecidableEq

/-- Python `str(x)` as `compute_kpis` applies it to a cell: text verbatim,
numbers and timestamps via their decimal rendering, the missing marker
(NaN) renders as "nan". -/
def cellStr : Cell → String
  | Cell.missing => "nan"
  | Cell.num n => toString n
  | Cell.date d => toString d
  | Cell.text s => s

/-- Python's `.lower()` on a string (ASCII case folding, the relevant range
for the fixed vocabularies and keywords of this program). -/
def lowerStr (s : String) : String := String.mk (s.data.map Char.toLower)

/-- Numeric value of one decimal digit character. -/
def digVal (c : Char) : Nat := c.toNat - Char.toNat '0'

/-- Value of a big-endian list of decimal digit characters. -/
def natOfDigits (l : List Char) : Nat := l.foldl (fun a c => a * 10 + digVal c) 0

/-- Modelled from the spec: the external date parser used by the
keyword-assisted date rule (§4.1 rule 4) and by the KPI date coercion; the
repository delegates parsing to the external tabular-data library, which is
not under `src/`.  Accepts ISO-like `YYYY-MM-DD` strings and yields a
timestamp in minutes since the epoch; every other string fails. -/
def parseDate (s : String) : Option Int :=
  match s.data with
  | [y1, y2, y3, y4, '-', m1, m2, '-', d1, d2] =>
    if ([y1, y2, y3, y4, m1, m2, d1, d2].all Char.isDigit) then
      let y := natOfDigits [y1, y2, y3, y4]
      let m := natOfDigits [m1, m2]
      let d := natOfDigits [d1, d2]
      if 1 ≤ m ∧ m ≤ 12 ∧ 1 ≤ d ∧ d ≤ 31 then
        some ((((y * 12 + (m - 1)) * 31 + (d - 1)) * 1440 : Nat) : Int)
      else none
    else none
  | _ => none

/-- Modelled from the spec: the numeric-coercion attempt of §4.1 rule 5 on a
single textual value (an optional sign followed by decimal digits). -/
def parseNum (s : String) : Option Int :=
  match s.data with
  | [] => none
  | ('-') :: rest =>
    if rest ≠ [] ∧ rest.all Char.isDigit then some (-(natOfDigits rest : Int)) else none
  | l => if l.all Char.isDigit then some ((natOfDigits l : Int)) else none

/-- A named column: the spec's data model (§3). -/
structure Column where
  name : String
  cells : List Cell
deriving DecidableEq

/-- The five semantic roles of the spec (§3). -/
inductive Role where
  | numeric : Role
  | date : Role
  | categorical : Role
  | identifier : Role
  | status : Role
deriving DecidableEq

/-- The non-missing cells of a column; every success fraction of the
classifier is taken over these (§4.1, threshold semantics). -/
def nonMissing (c : Column) : List Cell :=
  c.cells.filter (fun x => decide (x ≠ Cell.missing))

/-- A cell that is already structurally a date value (§4.1 rule 2). -/
def cellIsDate : Cell → Bool
  | Cell.date _ => true
  | _ => false

/-- A cell that is already structurally a numeric value (§4.1 rule 3). -/
def cellIsNum : Cell → Bool
  | Cell.num _ => true
  | _ => false

/-- Modelled from the spec: the per-cell date-parse attempt of rule 4.
Native timestamps succeed with themselves, text succeeds when the external
parser accepts it, everything else fails. -/
def cellDateParse : Cell → Option Int
  | Cell.date d => some d
  | Cell.text s => parseDate s
  | _ => none

/-- Modelled from the spec: the per-cell numeric-coercion attempt of rule 5. -/
def cellNumParse : Cell → Option Int
  | Cell.num n => some n
  | Cell.text s => parseNum s
  | _ => none

/-- Number of non-missing cells of a column that parse as dates. -/
def dateSuccessCount (c : Column) : Nat :=
  (nonMissing c).countP (fun x => (cellDateParse x).isSome)

/-- Number of non-missing cells of a column that coerce to numbers. -/
def numSuccessCount (c : Column) : Nat :=
  (nonMissing c).countP (fun x => (cellNumParse x).isSome)

/-- Substring test on character lists (the classifier's case-insensitive
name-keyword checks are substring containment tests). -/
def containsSub (n : List Char) : List Char → Bool
  | [] => n.isEmpty
  | c :: t => n.isPrefixOf (c :: t) || containsSub n t

/-- The date keywords of §4.1 rule 4. -/
def dateKeywords : List String := ["date", "time", "start", "end"]

/-- Modelled from the spec: case-insensitive date-keyword test on a column
name (§4.1 rule 4). -/
def nameHasDateKeyword (n : String) : Bool :=
  dateKeywords.any (fun k => containsSub k.data (lowerStr n).data)

/-- The identifier keywords of §4.1 rule 7. -/
def idKeywords : List String := ["id", "name", "ref", "user", "agent", "technician", "caller"]

/-- Modelled from the spec: case-insensitive identifier-keyword test on a
column name (§4.1 rule 7). -/
def nameHasIdKeyword (n : String) : Bool :=
  idKeywords.any (fun k => containsSub k.data (lowerStr n).data)

/-- The fixed status vocabulary of §4.1 rule 6. -/
def statusVocab : List String :=
  ["yes", "no", "closed", "open", "passed", "failed", "done", "pending"]

/-- Modelled from the spec: a single textual value matches the status
vocabulary exactly when its lower-cased text is a member (§4.1 rule 6). -/
def statusMatch (s : String) : Bool := decide (lowerStr s ∈ statusVocab)

/-- The textual values of a column (the values rule 6 inspects). -/
def columnTextVals (c : Column) : List String :=
  c.cells.filterMap (fun x => match x with | Cell.text s => some s | _ => none)

/-- Modelled from the spec: rule 4's threshold test — the fraction of
non-missing values parsing as dates strictly exceeds `T_date = 0.6`
(`10·successes > 6·total`), gated on the name keyword.  A column with zero
non-missing values never matches (0/0 counts as no match, §4.1). -/
def dateRuleMatches (c : Column) : Bool :=
  nameHasDateKeyword c.name && decide (10 * dateSuccessCount c > 6 * (nonMissing c).length)

/-- Modelled from the spec: rule 5's threshold test — the fraction of
non-missing values coercible to numbers strictly exceeds `T_num = 0.8`
(`10·successes > 8·total`).  A column with zero non-missing values never
matches. -/
def numRuleMatches (c : Column) : Bool :=
  decide (10 * numSuccessCount c > 8 * (nonMissing c).length)

/-- Modelled from the spec: rule 6 — at least one textual value, lower-cased,
is in the status vocabulary. -/
def statusRuleMatches (c : Column) : Bool :=
  (columnTextVals c).any (fun s => statusMatch s)

/-- Modelled from the spec: the per-column decision procedure of §4.1,
evaluated in the fixed priority order, first match wins.  An all-missing
column defaults to Categorical (the implementer's choice sanctioned by
rule 1, keeping the partition total). -/
def classifyColumn (c : Column) : Role :=
  let nm := nonMissing c
  if nm.isEmpty then Role.categorical
  else if nm.all cellIsDate then Role.date
  else if nm.all cellIsNum then Role.numeric
  else if dateRuleMatches c then Role.date
  else if numRuleMatches c then Role.numeric
  else if statusRuleMatches c then Role.status
  else if nameHasIdKeyword c.name then Role.identifier
  else Role.categorical

/-- The classifier's output: the five role sets of column names (§4.1
contract). -/
structure RolePartition where
  numeric : List String
  date : List String
  categorical : List String
  identifier : List String
  status : List String
deriving DecidableEq

/-- Modelled from the spec: `classify(table)` — each column is examined
independently and its name is appended to the set of its role (§4.1). -/
def classify : List Column → RolePartition
  | [] => ⟨[], [], [], [], []⟩
  | c :: t =>
    let p := classify t
    match classifyColumn c with
    | Role.numeric => ⟨c.name :: p.numeric, p.date, p.categorical, p.identifier, p.status⟩
    | Role.date => ⟨p.numeric, c.name :: p.date, p.categorical, p.identifier, p.status⟩
    | Role.categorical => ⟨p.numeric, p.date, c.name :: p.categorical, p.identifier, p.status⟩
    | Role.identifier => ⟨p.numeric, p.date, p.categorical, c.name :: p.identifier, p.status⟩
    | Role.status => ⟨p.numeric, p.date, p.categorical, p.identifier, c.name :: p.status⟩

/-- Modelled from the spec: rule 4's normalization — when (and only when)
the keyword-assisted date rule is the rule that fires, the column's working
values are replaced by the parsed dates (§4.1, side effects). -/
def classifierDateCoerce (c : Cell) : Cell :=
  match cellDateParse c with
  | some d => Cell.date d
  | none => Cell.missing

/-- Modelled from the spec: the normalized column exposed to downstream
consumers alongside the partition (§6, output contract). -/
def normalizeColumn (c : Column) : Column :=
  let nm := nonMissing c
  if !nm.isEmpty && !nm.all cellIsDate && !nm.all cellIsNum && dateRuleMatches c then
    ⟨c.name, c.cells.map classifierDateCoerce⟩
  else c

/-- A pandas DataFrame as `compute_kpis` and `clean_name` consume it: an
ordered association list of named columns (column order is the DataFrame's
column order). -/
abbrev Table := List (String × List Cell)

/-- The membership test `col in data.columns`. -/
def hasCol : Table → String → Bool
  | [], _ => false
  | q :: l, n => if q.1 = n then true else hasCol l n

/-- Column read `data[col]` (first column of that name, the well-formed-table case). -/
def getCol : Table → String → Option (List Cell)
  | [], _ => none
  | q :: l, n => if q.1 = n then some q.2 else getCol l n

/-- Overwrite every column named `n` with the values `v`. -/
def replaceAllCols (l : Table) (n : String) (v : List Cell) : Table :=
  l.map (fun q => if q.1 = n then (q.1, v) else q)

/-- Column write `data[n] = v`: pandas column assignment — overwrite the column when the
name exists, otherwise append a new column at the end. -/
def setCol : Table → String → List Cell → Table
  | [], n, v => [(n, v)]
  | q :: l, n, v =>
    if q.1 = n then (q.1, v) :: replaceAllCols l n v else q :: setCol l n v

/-- Row count of the frame (length of its first column). -/
def nRows : Table → Nat
  | [] => 0
  | q :: _ => q.2.length

/-- One conditional-expression line of `compute_kpis`:
`data[src].apply(f) if src in data.columns else 0` — a mapped series when
the source column exists, a broadcast scalar `0` otherwise. -/
def flagCol (t : Table) (src : String) (f : Cell → Cell) : List Cell :=
  match getCol t src with
  | some vs => vs.map f
  | none => List.replicate (nRows t) (Cell.num 0)

/-- The list `['done', 'closed']` of completed-status values of `compute_kpis`. -/
def doneVocab : List String := ["done", "closed"]

/-- Line 12's `1 if str(x).lower() in ['done', 'closed'] else 0`. -/
def done01 (c : Cell) : Int := if lowerStr (cellStr c) ∈ doneVocab then 1 else 0

/-- Line 13's `1 if str(x).lower() not in ['done', 'closed'] else 0`. -/
def pend01 (c : Cell) : Int := if lowerStr (cellStr c) ∉ doneVocab then 1 else 0

/-- The four SLA lines' `1 if str(x).lower() == 'yes' else 0`. -/
def yes01 (c : Cell) : Int := if lowerStr (cellStr c) = "yes" then 1 else 0

/-- The call `pd.to_datetime(·, errors='coerce')` on one cell: timestamps pass
through, text is parsed (failures coerce to NaT, i.e. missing), numbers are
read as epoch offsets (modelled at the same minute granularity), missing
stays missing. -/
def coerceDateCell : Cell → Cell
  | Cell.missing => Cell.missing
  | Cell.date d => Cell.date d
  | Cell.num n => Cell.date n
  | Cell.text s =>
    match parseDate s with
    | some d => Cell.date d
    | none => Cell.missing

/-- One row of `(data['Closed date'] - data['Start date']).dt.days`
(line 22): the whole-day difference when both cells are timestamps
(`Timedelta.days` floors, hence `Int.fdiv` by the minutes in a day), NaT/NaN
otherwise. -/
def durCell : Cell → Cell → Cell
  | Cell.date c, Cell.date s => Cell.num (Int.fdiv (c - s) 1440)
  | _, _ => Cell.missing

/-- Lines 12–17 of `compute_kpis`: the six sequential flag-column
assignments on the caller's DataFrame. -/
def addFlags (t : Table) : Table :=
  let t1 := setCol t "Done Tasks" (flagCol t "Status" (fun c => Cell.num (done01 c)))
  let t2 := setCol t1 "Pending Tasks" (flagCol t1 "Status" (fun c => Cell.num (pend01 c)))
  let t3 := setCol t2 "SLA TTO Done" (flagCol t2 "SLA tto passed" (fun c => Cell.num (yes01 c)))
  let t4 := setCol t3 "SLA TTO Violations" (flagCol t3 "SLA tto over" (fun c => Cell.num (yes01 c)))
  let t5 := setCol t4 "SLA TTR Done" (flagCol t4 "SLA ttr passed" (fun c => Cell.num (yes01 c)))
  setCol t5 "SLA TTR Violations" (flagCol t5 "SLA ttr over" (fun c => Cell.num (yes01 c)))

/-- Function `compute_kpis` of `src/data_processing.py`, line for line.  The Python
function assigns each derived column directly on the caller's DataFrame
object (`data[...] = ...`) and returns that same object, so the table this
function returns is exactly the table the caller observes after the call. -/
def compute_kpis (t : Table) : Table :=
  let t6 := addFlags t
  if hasCol t6 "Closed date" && hasCol t6 "Start date" then
    let cv := ((getCol t6 "Closed date").getD []).map coerceDateCell
    let t7 := setCol t6 "Closed date" cv
    let sv := ((getCol t7 "Start date").getD []).map coerceDateCell
    setCol (setCol t7 "Start date" sv) "Duration (days)" (List.zipWith durCell cv sv)
  else
    setCol t6 "Duration (days)" (List.replicate (nRows t6) Cell.missing)

/-- The call `pd.to_datetime(vs, errors=...)` with its error mode made explicit:
with `errors='raise'` (`strict = true`) an unparseable non-missing value
raises, with `errors='coerce'` — the mode `compute_kpis` selects — the
call always succeeds and failures become NaT. -/
def to_datetime (strict : Bool) (vs : List Cell) : Except String (List Cell) :=
  if strict && vs.any (fun c => !(c == Cell.missing) && (coerceDateCell c == Cell.missing)) then
    Except.error "time data does not match"
  else Except.ok (vs.map coerceDateCell)

/-- Function `compute_kpis` with the fallibility of its library calls tracked in
`Except`: the only fallible steps are the two `pd.to_datetime` calls, taken
here through `to_datetime` in the `errors='coerce'` mode the source
selects.  Everything else is `str`/comparison plumbing that cannot raise. -/
def compute_kpisE (t : Table) : Except String Table :=
  let t6 := addFlags t
  if hasCol t6 "Closed date" && hasCol t6 "Start date" then
    match to_datetime false ((getCol t6 "Closed date").getD []) with
    | Except.error e => Except.error e
    | Except.ok cv =>
      let t7 := setCol t6 "Closed date" cv
      match to_datetime false ((getCol t7 "Start date").getD []) with
      | Except.error e => Except.error e
      | Except.ok sv =>
        Except.ok (setCol (setCol t7 "Start date" sv) "Duration (days)" (List.zipWith durCell cv sv))
  else
    Except.ok (setCol t6 "Duration (days)" (List.replicate (nRows t6) Cell.missing))

/-- Python whitespace (`\s` of the regex and `str.strip`), ASCII range. -/
def isPyWs (c : Char) : Bool :=
  c == ' ' || c == '\t' || c == '\n' || c == '\r' || c == Char.ofNat 11 || c == Char.ofNat 12

/-- A character of the regex class `[\s_-]`. -/
def isSepChar (c : Char) : Bool := isPyWs c || c == '_' || c == '-'

/-- The call `.str.replace(r'[\s_-]*\d+$', '', regex=True)` on one value: the regex
is end-anchored, so its leftmost match removes the maximal trailing run of
digits together with the maximal run of space/underscore/hyphen separators
immediately before it; a value with no trailing digit is unchanged. -/
def removeIdSuffixL (l : List Char) : List Char :=
  let r := l.reverse
  if (r.takeWhile Char.isDigit).isEmpty then l
  else ((r.dropWhile Char.isDigit).dropWhile isSepChar).reverse

/-- The call `.str.strip()` on one value: drop leading and trailing whitespace. -/
def stripEndsL (l : List Char) : List Char :=
  ((l.dropWhile isPyWs).reverse.dropWhile isPyWs).reverse

/-- The per-value transformation of `clean_name`: `str(x)` is already taken
by the caller, then the ID suffix is removed and the ends stripped. -/
def cleanStr (s : String) : String :=
  String.mk (stripEndsL (removeIdSuffixL s.data))

/-- Function `clean_name` of `src/data_processing.py`: `None` when the column is
absent, otherwise the column as text with trailing IDs removed and
whitespace stripped. -/
def clean_name (t : Table) (col : String) : Option (List String) :=
  if hasCol t col then
    some (((getCol t col).getD []).map (fun c => cleanStr (cellStr c)))
  else none

/-- Whether the last character of a list exists and satisfies `q`. -/
def lastSatisfies (q : Char → Bool) (l : List Char) : Bool :=
  match l.getLast? with
  | none => false
  | some c => q c

/-! ### Association-list lemmas for the table embedding -/

theorem getCol_replaceAllCols_ne {n' n : String} (l : Table) (v : List Cell)
    (h : ¬ n' = n) : getCol (replaceAllCols l n v) n' = getCol l n' := by
  induction l with
  | nil => rfl
  | cons q l ih =>
    by_cases hq : q.1 = n <;> by_cases hq' : q.1 = n' <;>
      simp_all [replaceAllCols, getCol]

theorem getCol_setCol_same (l : Table) (n : String) (v : List Cell) :
    getCol (setCol l n v) n = some v := by
  induction l with
  | nil => simp [setCol, getCol]
  | cons q l ih =>
    by_cases hq : q.1 = n <;> simp_all [setCol, getCol]

theorem getCol_setCol_ne {n' n : String} (l : Table) (v : List Cell)
    (h : ¬ n' = n) : getCol (setCol l n v) n' = getCol l n' := by
  induction l with
  | nil => simp [setCol, getCol, Ne.symm h]
  | cons q l ih =>
    by_cases hq : q.1 = n <;> by_cases hq' : q.1 = n' <;>
      simp_all [setCol, getCol, getCol_replaceAllCols_ne]

theorem hasCol_replaceAllCols (l : Table) (n n' : String) (v : List Cell) :
    hasCol (replaceAllCols l n v) n' = hasCol l n' := by
  induction l with
  | nil => rfl
  | cons q l ih =>
    by_cases hq : q.1 = n <;> by_cases hq' : q.1 = n' <;>
      simp_all [replaceAllCols, hasCol]

theorem hasCol_setCol_self (l : Table) (n : String) (v : List Cell) :
    hasCol (setCol l n v) n = true := by
  induction l with
  | nil => simp [setCol, hasCol]
  | cons q l ih =>
    by_cases hq : q.1 = n <;> simp_all [setCol, hasCol]

theorem hasCol_setCol_ne {n' n : String} (l : Table) (v : List Cell)
    (h : ¬ n' = n) : hasCol (setCol l n v) n' = hasCol l n' := by
  induction l with
  | nil => simp [setCol, hasCol, Ne.symm h]
  | cons q l ih =>
    by_cases hq : q.1 = n <;> by_cases hq' : q.1 = n' <;>
      simp_all [setCol, hasCol, hasCol_replaceAllCols]

theorem getCol_isSome_of_hasCol {l : Table} {n : String} (h : hasCol l n = true) :
    ∃ v, getCol l n = some v := by
  induction l with
  | nil => simp [hasCol] at h
  | cons q l ih =>
    by_cases hq : q.1 = n <;> simp_all [hasCol, getCol]

theorem hasCol_of_getCol_some {l : Table} {n : String} {v : List Cell}
    (h : getCol l n = some v) : hasCol l n = true := by
  induction l with
  | nil => simp [getCol] at h
  | cons q l ih =>
    by_cases hq : q.1 = n <;> simp_all [hasCol, getCol]

theorem getCol_addFlags_other (t : Table) {n : String}
    (h1 : ¬ n = "Done Tasks") (h2 : ¬ n = "Pending Tasks") (h3 : ¬ n = "SLA TTO Done")
    (h4 : ¬ n = "SLA TTO Violations") (h5 : ¬ n = "SLA TTR Done")
    (h6 : ¬ n = "SLA TTR Violations") : getCol (addFlags t) n = getCol t n := by
  simp only [addFlags]
  rw [getCol_setCol_ne _ _ h6, getCol_setCol_ne _ _ h5, getCol_setCol_ne _ _ h4,
    getCol_setCol_ne _ _ h3, getCol_setCol_ne _ _ h2, getCol_setCol_ne _ _ h1]

theorem hasCol_addFlags_other (t : Table) {n : String}
    (h1 : ¬ n = "Done Tasks") (h2 : ¬ n = "Pending Tasks") (h3 : ¬ n = "SLA TTO Done")
    (h4 : ¬ n = "SLA TTO Violations") (h5 : ¬ n = "SLA TTR Done")
    (h6 : ¬ n = "SLA TTR Violations") : hasCol (addFlags t) n = hasCol t n := by
  simp only [addFlags]
  rw [hasCol_setCol_ne _ _ h6, hasCol_setCol_ne _ _ h5, hasCol_setCol_ne _ _ h4,
    hasCol_setCol_ne _ _ h3, hasCol_setCol_ne _ _ h2, hasCol_setCol_ne _ _ h1]

theorem getCol_addFlags_done (t : Table) :
    getCol (addFlags t) "Done Tasks" =
      some (flagCol t "Status" (fun c => Cell.num (done01 c))) := by
  simp only [addFlags]
  rw [getCol_setCol_ne _ _ (by decide), getCol_setCol_ne _ _ (by decide),
    getCol_setCol_ne _ _ (by decide), getCol_setCol_ne _ _ (by decide),
    getCol_setCol_ne _ _ (by decide)]
  exact getCol_setCol_same _ _ _

theorem getCol_addFlags_pending (t : Table) :
    getCol (addFlags t) "Pending Tasks" =
      some (flagCol (setCol t "Done Tasks" (flagCol t "Status" (fun c => Cell.num (done01 c))))
        "Status" (fun c => Cell.num (pend01 c))) := by
  simp only [addFlags]
  rw [getCol_setCol_ne _ _ (by decide), getCol_setCol_ne _ _ (by decide),
    getCol_setCol_ne _ _ (by decide), getCol_setCol_ne _ _ (by decide)]
  exact getCol_setCol_same _ _ _

/-! ### Claim theorems -/

/-- C5: status-vocabulary matching is case-insensitive: a value matches the
fixed vocabulary {yes, no, closed, open, passed, failed, done, pending}
exactly when its lower-cased text is a member, so any two values with the
same lower-casing match alike, and "Yes", "YES", "Closed" all match. -/
theorem c5_status_vocab_case_insensitive :
    (∀ s : String, statusMatch s = true ↔ lowerStr s ∈ statusVocab) ∧
    (∀ s t : String, lowerStr s = lowerStr t → statusMatch s = statusMatch t) ∧
    statusMatch "Yes" = true ∧ statusMatch "YES" = true ∧ statusMatch "Closed" = true := by
  refine ⟨fun s => ?_, fun s t h => ?_, by decide, by decide, by decide⟩
  · simp [statusMatch]
  · simp [statusMatch, h]

/-- Witness for C5 at concrete inputs: "YES" and "yEs" lower-case alike, so
they match the status vocabulary alike. -/
theorem c5_witness : statusMatch "YES" = statusMatch "yEs" :=
  c5_status_vocab_case_insensitive.2.1 "YES" "yEs" (by decide)

/-- C7: threshold evaluation is division-safe: fractions are over
non-missing values only, and a column with zero non-missing values matches
neither the date-threshold rule nor the numeric-threshold rule (0/0 is no
match); evaluation falls through and the column ends up Categorical. -/
theorem c7_all_missing_no_division (c : Column) (h : (nonMissing c).length = 0) :
    dateRuleMatches c = false ∧ numRuleMatches c = false ∧
      classifyColumn c = Role.categorical := by
  have hnm : nonMissing c = [] := List.length_eq_zero.mp h
  refine ⟨?_, ?_, ?_⟩
  · simp [dateRuleMatches, dateSuccessCount, hnm]
  · simp [numRuleMatches, numSuccessCount, hnm]
  · simp [classifyColumn, hnm]

/-- Witness for C7: a column of one missing cell triggers no threshold rule
and is classified Categorical. -/
theorem c7_witness :
    dateRuleMatches ⟨"Start date", [Cell.missing]⟩ = false ∧
      numRuleMatches ⟨"Start date", [Cell.missing]⟩ = false ∧
      classifyColumn ⟨"Start date", [Cell.missing]⟩ = Role.categorical :=
  c7_all_missing_no_division ⟨"Start date", [Cell.missing]⟩ (by decide)

/-- C4: the classifier and the KPI derivation are deterministic: both are
pure functions of the table contents alone (no randomness, clock, or
ambient state), so two runs on identical, unmodified contents produce
identical partitions and identical derived columns. -/
theorem c4_deterministic :
    (∀ c₁ c₂ : List Column, c₁ = c₂ → classify c₁ = classify c₂) ∧
    (∀ t₁ t₂ : Table, t₁ = t₂ → compute_kpis t₁ = compute_kpis t₂) :=
  ⟨fun _ _ h => h ▸ rfl, fun _ _ h => h ▸ rfl⟩

/-- Witness for C4 at a concrete table: two runs agree. -/
theorem c4_witness :
    compute_kpis [("Status", [Cell.text "Done"])] =
      compute_kpis [("Status", [Cell.text "Done"])] :=
  c4_deterministic.2 [("Status", [Cell.text "Done"])] [("Status", [Cell.text "Done"])] rfl

/-- Counterexample for C2: `compute_kpis` does not leave the caller's table
unchanged.  The source assigns every derived column directly on the caller's
DataFrame (`data['Done Tasks'] = ...`, `data['Duration (days)'] = ...`) and
offers no opt-in flag; on the one-column table `{'Status': ['Done']}` the
caller's table after the call differs from the original. -/
theorem c2_counterexample :
    compute_kpis [("Status", [Cell.text "Done"])] ≠ [("Status", [Cell.text "Done"])] := by
  decide

/-- Lemma: `compute_kpis` always installs a `Duration (days)` column (both branches
of the source's final conditional assign it). -/
theorem hasCol_compute_kpis_duration (t : Table) :
    hasCol (compute_kpis t) "Duration (days)" = true := by
  simp only [compute_kpis]
  split <;> exact hasCol_setCol_self _ _ _

/-- C2 amended: `compute_kpis` performs the KPI derivation in place on the
caller's table — the caller's table after the call is the returned
KPI-augmented table, with no opt-in flag guarding the mutation; in
particular every table that lacks a `Duration (days)` column is observably
changed by the call. -/
theorem c2_amended_in_place (t : Table) (h : hasCol t "Duration (days)" = false) :
    hasCol (compute_kpis t) "Duration (days)" = true ∧ compute_kpis t ≠ t := by
  refine ⟨hasCol_compute_kpis_duration t, fun he => ?_⟩
  have hd := hasCol_compute_kpis_duration t
  rw [he, h] at hd
  exact Bool.false_ne_true hd

/-- Witness for C2's amended statement at a concrete table. -/
theorem c2_witness :
    hasCol (compute_kpis [("Status", [Cell.text "open"])]) "Duration (days)" = true ∧
      compute_kpis [("Status", [Cell.text "open"])] ≠ [("Status", [Cell.text "open"])] :=
  c2_amended_in_place [("Status", [Cell.text "open"])] (by decide)

/-- The `errors='coerce'` mode that `compute_kpis` selects can never return
an error, and `compute_kpisE` computes exactly the total function
`compute_kpis`. -/
theorem compute_kpisE_ok (t : Table) : compute_kpisE t = Except.ok (compute_kpis t) := by
  simp only [compute_kpisE, compute_kpis]
  split <;> rfl

/-- C3: the operation never raises on a well-formed table: with the
fallibility of the two `pd.to_datetime` calls tracked in `Except`, the
`errors='coerce'` mode the source selects always succeeds and returns the
complete result, and every cell whose date parse fails degrades silently to
a missing value rather than an exception. -/
theorem c3_no_raise :
    (∀ t : Table, compute_kpisE t = Except.ok (compute_kpis t)) ∧
    (∀ s : String, parseDate s = none → coerceDateCell (Cell.text s) = Cell.missing) := by
  refine ⟨compute_kpisE_ok, fun s h => ?_⟩
  simp [coerceDateCell, h]

/-- Witness for C3: the garbage value "zz" fails to parse and coerces to
missing; the whole run on a garbage table returns `ok`. -/
theorem c3_witness :
    coerceDateCell (Cell.text "zz") = Cell.missing :=
  c3_no_raise.2 "zz" (by decide)

theorem perm_ins2 {α : Type} (a : α) (A B C D E R : List α)
    (h : List.Perm (A ++ B ++ C ++ D ++ E) R) : List.Perm (A ++ (a :: B) ++ C ++ D ++ E) (a :: R) := by
  have h1 : A ++ (a :: B) ++ C ++ D ++ E = A ++ (a :: (B ++ C ++ D ++ E)) := by
    simp [List.append_assoc]
  have h2 : List.Perm (A ++ (a :: (B ++ C ++ D ++ E))) (a :: (A ++ (B ++ C ++ D ++ E))) :=
    List.perm_middle
  have h3 : a :: (A ++ (B ++ C ++ D ++ E)) = a :: (A ++ B ++ C ++ D ++ E) := by
    simp [List.append_assoc]
  exact (h1 ▸ (h3 ▸ h2)).trans (h.cons a)

theorem perm_ins3 {α : Type} (a : α) (A B C D E R : List α)
    (h : List.Perm (A ++ B ++ C ++ D ++ E) R) : List.Perm (A ++ B ++ (a :: C) ++ D ++ E) (a :: R) := by
  have h1 : A ++ B ++ (a :: C) ++ D ++ E = (A ++ B) ++ (a :: (C ++ D ++ E)) := by
    simp [List.append_assoc]
  have h2 : List.Perm ((A ++ B) ++ (a :: (C ++ D ++ E))) (a :: ((A ++ B) ++ (C ++ D ++ E))) :=
    List.perm_middle
  have h3 : a :: ((A ++ B) ++ (C ++ D ++ E)) = a :: (A ++ B ++ C ++ D ++ E) := by
    simp [List.append_assoc]
  exact (h1 ▸ (h3 ▸ h2)).trans (h.cons a)

theorem perm_ins4 {α : Type} (a : α) (A B C D E R : List α)
    (h : List.Perm (A ++ B ++ C ++ D ++ E) R) : List.Perm (A ++ B ++ C ++ (a :: D) ++ E) (a :: R) := by
  have h1 : A ++ B ++ C ++ (a :: D) ++ E = (A ++ B ++ C) ++ (a :: (D ++ E)) := by
    simp [List.append_assoc]
  have h2 : List.Perm ((A ++ B ++ C) ++ (a :: (D ++ E))) (a :: ((A ++ B ++ C) ++ (D ++ E))) :=
    List.perm_middle
  have h3 : a :: ((A ++ B ++ C) ++ (D ++ E)) = a :: (A ++ B ++ C ++ D ++ E) := by
    simp [List.append_assoc]
  exact (h1 ▸ (h3 ▸ h2)).trans (h.cons a)

theorem perm_ins5 {α : Type} (a : α) (A B C D E R : List α)
    (h : List.Perm (A ++ B ++ C ++ D ++ E) R) : List.Perm (A ++ B ++ C ++ D ++ (a :: E)) (a :: R) :=
  List.perm_middle.trans (h.cons a)

/-- C1: the classifier's output is a total, disjoint partition: the
concatenation of the five role sets is a permutation of the input
column-name sequence, so every input column name lands in exactly one role
set (counted with multiplicity) and the union of the five sets is exactly
the input column-name set with no duplicates across sets. -/
theorem c1_total_disjoint (cols : List Column) :
    List.Perm
      ((classify cols).numeric ++ (classify cols).date ++ (classify cols).categorical ++
        (classify cols).identifier ++ (classify cols).status)
      (cols.map Column.name) := by
  induction cols with
  | nil => rfl
  | cons c t ih =>
    cases hr : classifyColumn c with
    | numeric =>
      simp only [classify, hr, List.map_cons]
      exact (ih.cons c.name)
    | date =>
      simp only [classify, hr, List.map_cons]
      exact perm_ins2 c.name _ _ _ _ _ _ ih
    | categorical =>
      simp only [classify, hr, List.map_cons]
      exact perm_ins3 c.name _ _ _ _ _ _ ih
    | identifier =>
      simp only [classify, hr, List.map_cons]
      exact perm_ins4 c.name _ _ _ _ _ _ ih
    | status =>
      simp only [classify, hr, List.map_cons]
      exact perm_ins5 c.name _ _ _ _ _ _ ih

/-- The spec's §8.4 boundary column at 59%: named with a date keyword, 59 of
100 values parse as dates. -/
def col59 : Column :=
  ⟨"Created_Date", List.replicate 59 (Cell.text "2024-01-05") ++ List.replicate 41 (Cell.text "zz")⟩

/-- A boundary column at 61%: named with a date keyword, 61 of 100 values
parse as dates, strictly exceeding the 0.6 threshold. -/
def col61 : Column :=
  ⟨"Created_Date", List.replicate 61 (Cell.text "2024-01-05") ++ List.replicate 39 (Cell.text "zz")⟩

/-- C6: the date-threshold boundary at `T_date = 0.6`: every column whose
name contains a date keyword and whose date-parse success fraction strictly
exceeds 0.6 is classified Date, with its working values replaced by the
parsed dates; the 59%-parseable column `col59` is not classified Date (the
threshold rule does not match and it falls through to the later rules,
landing on Categorical). -/
theorem c6_date_threshold :
    (∀ c : Column, nameHasDateKeyword c.name = true →
        10 * dateSuccessCount c > 6 * (nonMissing c).length →
        classifyColumn c = Role.date ∧
          (normalizeColumn c).cells = c.cells.map classifierDateCoerce) ∧
    classifyColumn col59 = Role.categorical ∧ dateRuleMatches col59 = false := by
  refine ⟨fun c hkw hfrac => ?_, by decide, by decide⟩
  have hcnt : dateSuccessCount c ≤ (nonMissing c).length := by
    rw [dateSuccessCount]
    exact List.countP_le_length _
  have hlen : 0 < (nonMissing c).length := by omega
  have hsucc : 0 < dateSuccessCount c := by omega
  have hne : (nonMissing c).isEmpty = false := by
    rw [List.isEmpty_eq_false]
    intro he
    rw [he] at hlen
    exact Nat.lt_irrefl 0 hlen
  have hdr : dateRuleMatches c = true := by
    simp only [dateRuleMatches, hkw, Bool.true_and, decide_eq_true_eq]
    exact hfrac
  cases hall : (nonMissing c).all cellIsDate with
  | true =>
    constructor
    · simp [classifyColumn, hne, hall]
    · have hfix : ∀ x ∈ c.cells, classifierDateCoerce x = x := by
        intro x hx
        by_cases hm : x = Cell.missing
        · subst hm; rfl
        · have hxnm : x ∈ nonMissing c := by simp [nonMissing, hx, hm]
          have hxd := List.all_eq_true.mp hall x hxnm
          cases x <;> simp_all [cellIsDate, classifierDateCoerce, cellDateParse]
      have hmap : c.cells.map classifierDateCoerce = c.cells :=
        (List.map_congr_left hfix).trans (List.map_id' c.cells)
      simp [normalizeColumn, hall, hmap]
  | false =>
    rw [dateSuccessCount] at hsucc
    obtain ⟨x, hx, hpx⟩ := List.countP_pos_iff.mp hsucc
    have hxn : cellIsNum x = false := by
      cases x <;> simp_all [cellDateParse, cellIsNum]
    have hnum : (nonMissing c).all cellIsNum = false := by
      cases hn : (nonMissing c).all cellIsNum with
      | false => rfl
      | true =>
        have := List.all_eq_true.mp hn x hx
        rw [hxn] at this
        exact absurd this (Bool.false_ne_true)
    constructor
    · simp [classifyColumn, hne, hall, hnum, hdr]
    · simp [normalizeColumn, hne, hall, hnum, hdr]

/-- Witness for C6: the 61%-parseable keyword-named column is classified
Date and its working values are the parsed dates. -/
theorem c6_witness :
    classifyColumn col61 = Role.date ∧
      (normalizeColumn col61).cells = col61.cells.map classifierDateCoerce :=
  c6_date_threshold.1 col61 (by decide) (by decide)

/-- C8: for every table with a `Status` column, the derived `Done Tasks`
and `Pending Tasks` columns are exact complements: row by row they are the
indicator of `str(x).lower() in ['done','closed']` and its negation, so
their sum is 1 on every row; a row counts as done exactly when its
lower-cased status is "done" or "closed". -/
theorem c8_done_pending_complement (t : Table) (sv : List Cell)
    (h : getCol t "Status" = some sv) :
    getCol (compute_kpis t) "Done Tasks" = some (sv.map (fun c => Cell.num (done01 c))) ∧
    getCol (compute_kpis t) "Pending Tasks" = some (sv.map (fun c => Cell.num (pend01 c))) ∧
    (∀ c : Cell, done01 c + pend01 c = 1) ∧
    (∀ c : Cell, done01 c = 1 ↔ lowerStr (cellStr c) ∈ doneVocab) := by
  refine ⟨?_, ?_, ?_, ?_⟩
  · simp only [compute_kpis]
    split <;> simp [getCol_setCol_ne, getCol_addFlags_done, flagCol, h]
  · simp only [compute_kpis]
    split <;> simp [getCol_setCol_ne, getCol_addFlags_pending, flagCol, h]
  · intro c
    by_cases hc : lowerStr (cellStr c) ∈ doneVocab <;> simp [done01, pend01, hc]
  · intro c
    by_cases hc : lowerStr (cellStr c) ∈ doneVocab <;> simp [done01, hc]

/-- Witness for C8 at a concrete table: `{'Status': ['Done', 'open']}`
yields Done Tasks `[1, 0]`. -/
theorem c8_witness :
    getCol (compute_kpis [("Status", [Cell.text "Done", Cell.text "open"])]) "Done Tasks" =
      some [Cell.num 1, Cell.num 0] := by
  have h := c8_done_pending_complement [("Status", [Cell.text "Done", Cell.text "open"])]
    [Cell.text "Done", Cell.text "open"] (by decide)
  exact h.1.trans (by decide)

/-- C9: the `Duration (days)` column: when either date column is absent the
derived duration is missing on every row; when both are present each row's
duration is computed by `durCell` on the coerced dates — the floored
whole-day difference when both coerce, and a missing value whenever a date
is missing or fails to parse. -/
theorem c9_duration (t : Table) :
    (¬ (hasCol t "Closed date" = true ∧ hasCol t "Start date" = true) →
      ∃ dv, getCol (compute_kpis t) "Duration (days)" = some dv ∧
        ∀ c ∈ dv, c = Cell.missing) ∧
    (hasCol t "Closed date" = true → hasCol t "Start date" = true →
      ∃ cv sv, getCol t "Closed date" = some cv ∧ getCol t "Start date" = some sv ∧
        getCol (compute_kpis t) "Duration (days)" =
          some (List.zipWith durCell (cv.map coerceDateCell) (sv.map coerceDateCell))) ∧
    (∀ a : Cell, durCell Cell.missing a = Cell.missing) ∧
    (∀ a : Cell, durCell a Cell.missing = Cell.missing) ∧
    (∀ x y : Int, durCell (Cell.date x) (Cell.date y) = Cell.num (Int.fdiv (x - y) 1440)) ∧
    (∀ s : String, parseDate s = none →
      ∀ a : Cell, durCell (coerceDateCell (Cell.text s)) a = Cell.missing) := by
  refine ⟨?_, ?_, fun a => by cases a <;> rfl, fun a => by cases a <;> rfl,
    fun x y => rfl, fun s hs a => by simp [coerceDateCell, hs, durCell]⟩
  · intro hn
    have hfalse : (hasCol t "Closed date" && hasCol t "Start date") = false := by
      cases h1 : hasCol t "Closed date" <;> cases h2 : hasCol t "Start date" <;> simp_all
    simp only [compute_kpis,
      hasCol_addFlags_other t (n := "Closed date") (by decide) (by decide) (by decide)
        (by decide) (by decide) (by decide),
      hasCol_addFlags_other t (n := "Start date") (by decide) (by decide) (by decide)
        (by decide) (by decide) (by decide), hfalse, Bool.false_eq_true, if_false]
    exact ⟨_, getCol_setCol_same _ _ _, fun c hc => List.eq_of_mem_replicate hc⟩
  · intro h1 h2
    obtain ⟨cv, hcv⟩ := getCol_isSome_of_hasCol h1
    obtain ⟨sv, hsv⟩ := getCol_isSome_of_hasCol h2
    have gC : getCol (addFlags t) "Closed date" = some cv := by
      rw [getCol_addFlags_other t (by decide) (by decide) (by decide) (by decide) (by decide)
        (by decide), hcv]
    have gS : getCol (addFlags t) "Start date" = some sv := by
      rw [getCol_addFlags_other t (by decide) (by decide) (by decide) (by decide) (by decide)
        (by decide), hsv]
    have gS2 : getCol (setCol (addFlags t) "Closed date" (List.map coerceDateCell cv))
        "Start date" = some sv := by
      rw [getCol_setCol_ne _ _ (by decide)]
      exact gS
    refine ⟨cv, sv, hcv, hsv, ?_⟩
    simp only [compute_kpis, hasCol_of_getCol_some gC, hasCol_of_getCol_some gS,
      Bool.and_self, if_true, gC, Option.getD_some, gS2]
    exact getCol_setCol_same _ _ _

/-- Witness for C9 at concrete tables: a table lacking the date columns
gets an all-missing duration column; a table with both date columns gets
the coerced per-row difference. -/
theorem c9_witness :
    (∃ dv, getCol (compute_kpis [("Status", [Cell.text "x"])]) "Duration (days)" = some dv ∧
      ∀ c ∈ dv, c = Cell.missing) ∧
    (∃ cv sv,
      getCol [("Closed date", [Cell.text "2024-01-05"]), ("Start date", [Cell.text "2024-01-03"])]
        "Closed date" = some cv ∧
      getCol [("Closed date", [Cell.text "2024-01-05"]), ("Start date", [Cell.text "2024-01-03"])]
        "Start date" = some sv ∧
      getCol (compute_kpis
          [("Closed date", [Cell.text "2024-01-05"]), ("Start date", [Cell.text "2024-01-03"])])
        "Duration (days)" =
        some (List.zipWith durCell (cv.map coerceDateCell) (sv.map coerceDateCell))) :=
  ⟨(c9_duration [("Status", [Cell.text "x"])]).1 (by decide),
   (c9_duration
      [("Closed date", [Cell.text "2024-01-05"]), ("Start date", [Cell.text "2024-01-03"])]).2.1
      (by decide) (by decide)⟩

theorem dropWhile_append_of_all {α : Type} (p : α → Bool) (l₁ l₂ : List α)
    (h : ∀ x ∈ l₁, p x = true) : (l₁ ++ l₂).dropWhile p = l₂.dropWhile p := by
  induction l₁ with
  | nil => rfl
  | cons a l ih =>
    have ha := h a (by simp)
    simp only [List.cons_append, List.dropWhile_cons, ha, if_true]
    exact ih (fun x hx => h x (by simp [hx]))

theorem dropWhile_eq_self_of_head {α : Type} (p : α → Bool) (l : List α)
    (h : ∀ c, l.head? = some c → p c = false) : l.dropWhile p = l := by
  cases l with
  | nil => rfl
  | cons a l =>
    have ha := h a rfl
    simp [List.dropWhile_cons, ha]

theorem isDigit_eq_false_of_isSepChar {c : Char} (h : isSepChar c = true) :
    c.isDigit = false := by
  simp only [isSepChar, isPyWs, Bool.or_eq_true, beq_iff_eq] at h
  rcases h with ((((((h | h) | h) | h) | h) | h) | h) | h <;> subst h <;> decide

/-- C10: `clean_name` returns None exactly when the named column is absent
(rather than raising a KeyError); when the column is present it returns the
column rendered as text with the ID suffix removed and the ends stripped,
where the suffix removal erases exactly one trailing run of digits together
with the run of space/underscore/hyphen separators immediately before it,
and leaves a value with no trailing digit unchanged. -/
theorem c10_clean_name :
    (∀ (t : Table) (col : String), clean_name t col = none ↔ hasCol t col = false) ∧
    (∀ (t : Table) (col : String) (vs : List Cell), getCol t col = some vs →
      clean_name t col = some (vs.map (fun c => cleanStr (cellStr c)))) ∧
    (∀ l : List Char, lastSatisfies Char.isDigit l = false → removeIdSuffixL l = l) ∧
    (∀ p w d : List Char, d ≠ [] → (∀ c ∈ d, c.isDigit = true) →
      (∀ c ∈ w, isSepChar c = true) → lastSatisfies isSepChar p = false →
      (w = [] → lastSatisfies Char.isDigit p = false) →
      removeIdSuffixL (p ++ w ++ d) = p) := by
  refine ⟨fun t col => ?_, fun t col vs h => ?_, fun l hld => ?_, fun p w d hd hdd hw hp1 hp2 => ?_⟩
  · by_cases h : hasCol t col = true
    · simp [clean_name, h]
    · simp [clean_name, h]
  · have hh := hasCol_of_getCol_some h
    simp [clean_name, hh, h]
  · cases hl : l.reverse with
    | nil =>
      have : l = [] := List.reverse_eq_nil_iff.mp hl
      subst this
      rfl
    | cons a r =>
      have ha : l.getLast? = some a := by
        rw [← List.head?_reverse, hl]
        rfl
      have had : a.isDigit = false := by simpa [lastSatisfies, ha] using hld
      simp [removeIdSuffixL, hl, List.takeWhile_cons, had]
  · have hrev : (p ++ w ++ d).reverse = d.reverse ++ (w.reverse ++ p.reverse) := by
      simp [List.reverse_append, List.append_assoc]
    obtain ⟨x, xs, hxx⟩ : ∃ x xs, d.reverse = x :: xs := by
      cases hh : d.reverse with
      | nil => exact absurd (List.reverse_eq_nil_iff.mp hh) hd
      | cons x xs => exact ⟨x, xs, rfl⟩
    have hx : x.isDigit = true := hdd x (by rw [← List.mem_reverse, hxx]; simp)
    have hne : (((p ++ w ++ d).reverse).takeWhile Char.isDigit).isEmpty = false := by
      rw [hrev, hxx]
      simp [List.takeWhile_cons, hx]
    have hstep1 : ((p ++ w ++ d).reverse).dropWhile Char.isDigit = w.reverse ++ p.reverse := by
      rw [hrev,
        dropWhile_append_of_all Char.isDigit d.reverse _
          (fun c hc => hdd c (List.mem_reverse.mp hc))]
      apply dropWhile_eq_self_of_head
      intro c hc
      cases hwre : w.reverse with
      | nil =>
        have hwnil : w = [] := List.reverse_eq_nil_iff.mp hwre
        rw [hwre, List.nil_append] at hc
        have hpc : p.getLast? = some c := by
          rw [← List.head?_reverse]
          exact hc
        simpa [lastSatisfies, hpc] using hp2 hwnil
      | cons y ys =>
        rw [hwre] at hc
        have hcy : c = y := by
          simp only [List.cons_append, List.head?_cons, Option.some.injEq] at hc
          exact hc.symm
        subst hcy
        exact isDigit_eq_false_of_isSepChar
          (hw c (List.mem_reverse.mp (by rw [hwre]; simp)))
    have hstep2 : (w.reverse ++ p.reverse).dropWhile isSepChar = p.reverse := by
      rw [dropWhile_append_of_all isSepChar w.reverse _
        (fun c hc => hw c (List.mem_reverse.mp hc))]
      apply dropWhile_eq_self_of_head
      intro c hc
      have hpc : p.getLast? = some c := by
        rw [← List.head?_reverse]
        exact hc
      simpa [lastSatisfies, hpc] using hp1
    simp only [removeIdSuffixL, hne, Bool.false_eq_true, if_false, hstep1, hstep2,
      List.reverse_reverse]

/-- Witness for C10: `"Alice _42"` cleans to `"Alice"` — the trailing digit
run and its separators are removed. -/
theorem c10_witness :
    removeIdSuffixL (("Alice".data ++ " _".data) ++ "42".data) = "Alice".data :=
  c10_clean_name.2.2.2 "Alice".data " _".data "42".data (by decide) (by decide) (by decide)
    (by decide) (fun hw0 => absurd hw0 (by decide))

end SitsBI
